import Mathlib

/-!
Verification of the node-side volume lifecycle and the multi-source metadata
resolver of the alibaba-cloud-csi-driver repository, as a shallow embedding.

Conventions of the embedding:
- Go strings are Lean `String` where only equality and concatenation matter;
  functions that walk bytes (substring search, splitting, path cleaning) are
  defined over `List Char` (the `data` of a `String`) so that every definition
  is executable by the kernel.
- gRPC status codes are the inductive `RpcErr`; per the error taxonomy of the
  design, `aborted` is the retryable class and `internal` is non-retryable.
- Filesystem effects (the on-disk Device Record store, sysfs writes, attach
  calls) are modelled as explicit state threaded through the functions;
  results of external binaries and syscalls enter as oracle parameters.
-/

namespace Csi

/-! ## Character-list string utilities (Go semantics) -/

/-- Substring search, as Go `bytes.Contains` / `strings.Contains`:
true iff `needle` occurs contiguously inside `hay`. -/
def containsSub : List Char → List Char → Bool
  | [], needle => needle.isEmpty
  | c :: rest, needle => needle.isPrefixOf (c :: rest) || containsSub rest needle

/-- Go `strings.Cut(s, "=")`: split at the first '=';
`none` when no '=' occurs (Go reports found=false). -/
def cutEq : List Char → Option (List Char × List Char)
  | [] => none
  | c :: rest =>
    if c = '=' then some ([], rest)
    else match cutEq rest with
      | some (k, v) => some (c :: k, v)
      | none => none

/-- Go `strings.Split(s, sep)` for a one-character separator:
always returns at least one (possibly empty) field. -/
def splitOnChar (sep : Char) : List Char → List (List Char)
  | [] => [[]]
  | c :: rest =>
    let r := splitOnChar sep rest
    if c = sep then [] :: r
    else match r with
      | h :: t => (c :: h) :: t
      | [] => [[c]]

/-- Go `strings.TrimSpace`: drop whitespace from both ends. -/
def trimSpace (s : List Char) : List Char :=
  ((s.dropWhile Char.isWhitespace).reverse.dropWhile Char.isWhitespace).reverse

/-- Stack step of Go `path.Clean`: process the remaining path elements
(empty and "." elements already dropped) against the output stack,
which is kept reversed. -/
def cleanStack (rooted : Bool) : List (List Char) → List (List Char) → List (List Char)
  | st, [] => st
  | st, seg :: rest =>
    if seg = ['.', '.'] then
      match st with
      | [] => cleanStack rooted (if rooted then [] else [seg]) rest
      | top :: tail =>
        if top = ['.', '.'] then cleanStack rooted (seg :: st) rest
        else cleanStack rooted tail rest
    else cleanStack rooted (seg :: st) rest

/-- Join path elements with '/' separators. -/
def joinSlash : List (List Char) → List Char
  | [] => []
  | [s] => s
  | s :: rest => s ++ '/' :: joinSlash rest

/-- Go `path.Clean` (equals `filepath.Clean` on Linux): purely lexical
simplification that squashes repeated slashes, drops "." elements, resolves
".." against preceding elements and against the root. -/
def pathClean (p : List Char) : List Char :=
  match p with
  | [] => ['.']
  | c :: _ =>
    let rooted := c = '/'
    let segs := (splitOnChar '/' p).filter (fun s => !(s == []) && !(s == ['.']))
    let stack := cleanStack rooted [] segs
    let body := joinSlash stack.reverse
    if rooted then (if body = [] then ['/'] else '/' :: body)
    else (if body = [] then ['.'] else body)

/-- Go `filepath.Base` on Linux: last element of the path after dropping
trailing slashes; "/" for an all-slash path, "." for the empty path. -/
def filepathBase (p : List Char) : List Char :=
  if p = [] then ['.']
  else
    let q := (p.reverse.dropWhile (fun c => c == '/')).reverse
    if q = [] then ['/']
    else (q.reverse.takeWhile (fun c => !(c == '/'))).reverse

/-! ## Mount options (pkg/disk/nodeserver.go and pkg/ens/nodeserver.go) -/

/-- Constant `NOUUID`, the xfs mount option avoiding filesystem-UUID clashes. -/
def NOUUID : String := "nouuid"

/-- Function `hasMountOption` from pkg/ens/nodeserver.go (identical in pkg/disk):
whether the option slice already contains the given mount option. -/
def hasMountOption (options : List String) (opt : String) : Bool :=
  match options with
  | [] => false
  | o :: rest => if o = opt then true else hasMountOption rest opt

/-- The deduplication loop of `collectMountOptions`: Go ranges over `mntFlags`
appending each flag to `options` unless already present. -/
def collectMountLoop (options : List String) : List String → List String
  | [] => options
  | opt :: rest =>
    if hasMountOption options opt then collectMountLoop options rest
    else collectMountLoop (options ++ [opt]) rest

/-- Function `collectMountOptions` from pkg/disk/nodeserver.go (identical in pkg/ens):
deduplicate the mount flags, then append `nouuid` for xfs when absent. -/
def collectMountOptions (fsType : String) (mntFlags : List String) : List String :=
  let options := collectMountLoop [] mntFlags
  if fsType = "xfs" then
    if hasMountOption options NOUUID then options else options ++ [NOUUID]
  else options

/-- Reference function following the words of the specification: remove
duplicates, keeping the first occurrence of each flag in order. -/
def dedupFirst : List String → List String
  | [] => []
  | x :: xs => x :: dedupFirst (xs.filter (fun y => !(y == x)))
termination_by l => l.length
decreasing_by
  simp only [List.length_cons]
  exact Nat.lt_succ_of_le (List.length_filter_le _ _)

/-! ## Metadata resolver (pkg/cloud/metadata/metadata.go) -/

/-- Type `MetadataKey` from pkg/cloud/metadata/metadata.go. -/
inductive MetadataKey where
  | regionID
  | zoneID
  | instanceID
  | instanceType
  | runtime
deriving DecidableEq

/-- Outcome of a single `MetadataProvider.Get` call: Go returns
`(string, error)` where the error may be the sentinel `ErrUnknownMetadataKey`
("key not recognized by this source") or any other error. -/
inductive PResult where
  | ok (v : String)
  | unknownKey
  | err (e : String)
deriving DecidableEq

/-- A metadata provider, abstracted to its `Get` behaviour. -/
abbrev Provider := MetadataKey → PResult

/-- Result of `Metadata.Get`: a value, the `ErrUnknownMetadataKey` sentinel, or
the aggregate built by `utilerrors.NewAggregate` from the collected provider
errors (never empty on that branch). -/
inductive MGetResult where
  | value (v : String)
  | unknownKey
  | aggregate (errs : List String)
deriving DecidableEq

/-- The provider loop of `Metadata.Get` (metadata.go lines 179-195): try each
provider in order; the first value wins; `ErrUnknownMetadataKey` is skipped;
any other error is appended to the collected list. -/
def metadataGetLoop : List Provider → MetadataKey → List String → MGetResult
  | [], _, errs => if errs.isEmpty then .unknownKey else .aggregate errs
  | p :: ps, k, errs =>
    match p k with
    | .ok v => .value v
    | .unknownKey => metadataGetLoop ps k errs
    | .err e => metadataGetLoop ps k (errs ++ [e])

/-- Function `Metadata.Get` over a provider chain. -/
def metadataGet (ps : List Provider) (k : MetadataKey) : MGetResult :=
  metadataGetLoop ps k []

/-- The value of the first provider in order that returns a value for `k`
(specification vocabulary for stating the fallback claim). -/
def firstValue (ps : List Provider) (k : MetadataKey) : Option String :=
  ps.findSome? (fun p => match p k with | .ok v => some v | _ => none)

/-- The non-unknown-key errors of the chain for `k`, in provider order
(specification vocabulary: the errors `Metadata.Get` collects). -/
def collectErrors (ps : List Provider) (k : MetadataKey) : List String :=
  ps.filterMap (fun p => match p k with | .err e => some e | _ => none)

/-! ## Lazy provider initialization (metadata.go lines 64-96) -/

/-- Outcome of `MetadataFetcher.FetchFor(key)`: the sentinel
`ErrUnknownMetadataKey` (returned before any client is constructed, leaving
the lazy wrapper untouched), a constructed provider, or a construction
error. -/
inductive FetchResult where
  | unknownKey
  | ok (p : Provider)
  | fail (e : String)

/-- State of a `lazyInitProvider`: the `provider` and `err` fields are both
nil until the first completed construction pins exactly one of them and
clears the fetcher. -/
structure LazyInitProvider where
  provider : Option Provider
  err : Option String
  fetcher : Option (MetadataKey → FetchResult)

/-- The error wrapping `fmt.Errorf("%T failed: %w", p.fetcher, err)` applied
to a failed construction. -/
def wrapFetchErr (e : String) : String := "fetcher failed: " ++ e

/-- The tail of `lazyInitProvider.Get` after the initialization block: a
pinned error is returned as is, otherwise the pinned provider is queried.
The `(none, none)` case is unreachable after pinning (the source would
dereference nil there); it is mapped to an error result. -/
def lazyTailGet (provider : Option Provider) (err : Option String) (k : MetadataKey) : PResult :=
  match err with
  | some e => .err e
  | none =>
    match provider with
    | some p => p k
    | none => .err "nil provider"

/-- Function `lazyInitProvider.Get` as a sequential state transformer (the Go mutex
makes the initialization block atomic; the embedding therefore runs it
atomically). An unknown-key fetch returns early without pinning anything;
a completed construction pins its outcome and clears the fetcher. -/
def lazyGet (s : LazyInitProvider) (k : MetadataKey) : PResult × LazyInitProvider :=
  if s.provider.isNone && s.err.isNone then
    match s.fetcher with
    | none => (.err "no fetcher", s)
    | some f =>
      match f k with
      | .unknownKey => (.unknownKey, s)
      | .ok p => (lazyTailGet (some p) none k, ⟨some p, none, none⟩)
      | .fail e =>
        (lazyTailGet none (some (wrapFetchErr e)) k, ⟨none, some (wrapFetchErr e), none⟩)
  else (lazyTailGet s.provider s.err k, s)

/-- A lazy provider is pinned once a completed construction fixed its
outcome (provider or error). -/
def pinned (s : LazyInitProvider) : Bool :=
  s.provider.isSome || s.err.isSome

/-- Run a sequence of `Get` calls against one lazy provider, threading its
state. -/
def lazyRun (s : LazyInitProvider) : List MetadataKey → List PResult × LazyInitProvider
  | [] => ([], s)
  | k :: ks =>
    let r := lazyGet s k
    let rest := lazyRun r.2 ks
    (r.1 :: rest.1, rest.2)

/-- Number of construction completions (transitions from unpinned to pinned)
along a trace of `Get` calls. -/
def pinCount (s : LazyInitProvider) : List MetadataKey → Nat
  | [] => 0
  | k :: ks =>
    let s1 := (lazyGet s k).2
    (if (!pinned s) && pinned s1 then 1 else 0) + pinCount s1 ks

/-! ## Provider chain assembly and the OpenAPI snapshot (metadata.go 132-177) -/

/-- A provider of the assembled chain. `plain` stands for the env, ECS
instance-metadata and Kubernetes providers (each already wrapped in its
caching and lazy-initialization layers, abstracted to the resulting `Get`
behaviour). `openAPI` is the control-plane provider appended by
`EnableOpenAPI`: it holds the snapshot chain `mPre` captured at registration.
Modelled from the spec: the `OpenAPIFetcher` itself is not under src/; per
the specification it consults its snapshot chain for the region and instance
identifiers and then queries the control-plane API, abstracted here as the
oracle `api region instance key`. -/
inductive MProvider where
  | plain (get : Provider)
  | openAPI (mPre : List MProvider) (api : String → String → MetadataKey → PResult)

/-- The `Metadata` struct: the ordered provider chain. -/
structure Metadata where
  providers : List MProvider

mutual

/-- Evaluate one chain provider. The `openAPI` provider consults only its
snapshot `mPre`, never the live chain. -/
def providerGetM : MProvider → MetadataKey → PResult
  | .plain g, k => g k
  | .openAPI mPre api, k =>
    match chainLoopM mPre .regionID [], chainLoopM mPre .instanceID [] with
    | .value r, .value i => api r i k
    | _, _ => .err "openAPI: snapshot chain resolution failed"

/-- Function `Metadata.Get` over structured chain providers (same loop as
`metadataGetLoop`). -/
def chainLoopM : List MProvider → MetadataKey → List String → MGetResult
  | [], _, errs => if errs.isEmpty then .unknownKey else .aggregate errs
  | p :: ps, k, errs =>
    match providerGetM p k with
    | .ok v => .value v
    | .unknownKey => chainLoopM ps k errs
    | .err e => chainLoopM ps k (errs ++ [e])

end

/-- Constructor `NewMetadata`: the chain starts with the environment provider. -/
def newMetadata (env : Provider) : Metadata :=
  ⟨[.plain env]⟩

/-- Method `Metadata.EnableEcs`: appends the ECS instance-metadata provider unless
disabled by the `ALIBABA_CLOUD_NO_ECS_METADATA` environment variable. -/
def Metadata.enableEcs (m : Metadata) (disabledByEnv : Bool) (p : Provider) : Metadata :=
  if disabledByEnv then m else ⟨m.providers ++ [.plain p]⟩

/-- Method `Metadata.EnableKubernetes`: appends the node-label provider unless
`KUBE_NODE_NAME` is unset. -/
def Metadata.enableKubernetes (m : Metadata) (nodeNameSet : Bool) (p : Provider) : Metadata :=
  if nodeNameSet then ⟨m.providers ++ [.plain p]⟩ else m

/-- Method `Metadata.EnableOpenAPI` (metadata.go lines 165-177): captures the
current chain as `mPre` and appends the OpenAPI provider holding that
snapshot. In Go, `mPre` holds the slice header of the previous chain: a later
`append` to `m.providers` never changes the first `len` elements seen through
`mPre`, so the immutable-list embedding is faithful. -/
def Metadata.enableOpenAPI (m : Metadata)
    (api : String → String → MetadataKey → PResult) : Metadata :=
  ⟨m.providers ++ [.openAPI m.providers api]⟩

/-- A registration step that can occur after `EnableOpenAPI`. -/
inductive EnableOp where
  | ecs (disabledByEnv : Bool) (p : Provider)
  | kubernetes (nodeNameSet : Bool) (p : Provider)
  | openAPI (api : String → String → MetadataKey → PResult)

/-- Apply one registration step. -/
def applyEnable (m : Metadata) : EnableOp → Metadata
  | .ecs d p => m.enableEcs d p
  | .kubernetes n p => m.enableKubernetes n p
  | .openAPI api => m.enableOpenAPI api

/-- Apply a sequence of registration steps. -/
def applyEnables (m : Metadata) (ops : List EnableOp) : Metadata :=
  ops.foldl applyEnable m

/-- Relation `Consults p q`: evaluating `p.Get` may evaluate `q.Get`; only the
`openAPI` provider consults other providers, namely those of its snapshot
chain (directly, or transitively through them). -/
inductive Consults : MProvider → MProvider → Prop
  | direct {mPre api q} : q ∈ mPre → Consults (.openAPI mPre api) q
  | indirect {mPre api q r} : q ∈ mPre → Consults q r → Consults (.openAPI mPre api) r

/-! ## gRPC status codes (error classification) -/

/-- The status codes the node server returns. Per the design taxonomy,
`aborted` is the retryable class; `internal` is the non-retryable
operator-must-intervene class. -/
inductive RpcErr where
  | internal (msg : String)
  | aborted (msg : String)
  | invalidArgument (msg : String)
  | notFound (msg : String)
deriving DecidableEq

/-! ## Device Record store (pkg/ens/nodeserver.go lines 639-669)

One file per volume ID, `<volumeID>.conf` under the volume directory,
containing the device path; archived records live in the sibling remove
directory as `<volumeID>-<timestamp>.conf`. The directories are modelled as
association lists from file name to content; `setAssoc` is a write/rename to
a name (creating or silently replacing, as `os.WriteFile` / `os.Rename` do)
and `eraseAssoc` removes a name (the source side of a rename). -/

/-- Look up a file by name. -/
def lookupAssoc (key : String) : List (String × String) → Option String
  | [] => none
  | (k, v) :: rest => if k = key then some v else lookupAssoc key rest

/-- Remove a file by name. -/
def eraseAssoc (key : String) : List (String × String) → List (String × String)
  | [] => []
  | (k, v) :: rest =>
    if k = key then eraseAssoc key rest else (k, v) :: eraseAssoc key rest

/-- Create or overwrite a file by name. -/
def setAssoc (key val : String) : List (String × String) → List (String × String)
  | [] => [(key, val)]
  | (k, v) :: rest =>
    if k = key then (key, val) :: rest else (k, v) :: setAssoc key val rest

/-- The file names of a directory. -/
def keysOf (l : List (String × String)) : List String := l.map Prod.fst

/-- The on-disk Device Record store: live records (volume directory) and
archived records (remove directory). -/
structure VolumeStore where
  live : List (String × String)
  archive : List (String × String)
deriving DecidableEq

/-- Well-formedness of the store model: file names are unique within each
directory, as they are on a filesystem. -/
def storeWF (s : VolumeStore) : Prop :=
  (keysOf s.live).Nodup ∧ (keysOf s.archive).Nodup

/-- The store with no records. -/
def emptyStore : VolumeStore := ⟨[], []⟩

/-- Archive file name `<volumeID>-<timestamp>.conf` built by
`removeVolumeConfig` (the timestamp is `time.Now()` formatted at second
granularity). -/
def archiveName (volumeID t : String) : String :=
  volumeID ++ "-" ++ t ++ ".conf"

/-- Function `removeVolumeConfig` (ens/nodeserver.go lines 658-669): when the live
record exists, rename it into the remove directory under a timestamped
name. -/
def removeVolumeConfig (t volumeID : String) (s : VolumeStore) : VolumeStore :=
  match lookupAssoc (volumeID ++ ".conf") s.live with
  | none => s
  | some content =>
    { live := eraseAssoc (volumeID ++ ".conf") s.live
      archive := setAssoc (archiveName volumeID t) content s.archive }

/-- Function `saveVolumeConfig` (ens/nodeserver.go lines 639-656): archive any
existing record for the volume ID, then write the new record. -/
def saveVolumeConfig (t volumeID devicePath : String) (s : VolumeStore) : VolumeStore :=
  let s1 := removeVolumeConfig t volumeID s
  { s1 with live := setAssoc (volumeID ++ ".conf") devicePath s1.live }

/-- A store operation together with the wall-clock timestamp it runs at. -/
inductive RecordOp where
  | save (t volumeID devicePath : String)
  | archive (t volumeID : String)

/-- Apply one store operation. -/
def applyRecordOp (s : VolumeStore) : RecordOp → VolumeStore
  | .save t id dev => saveVolumeConfig t id dev s
  | .archive t id => removeVolumeConfig t id s

/-- Apply a sequence of store operations. -/
def applyRecordOps (s : VolumeStore) (ops : List RecordOp) : VolumeStore :=
  ops.foldl applyRecordOp s

/-! ## Stage device verification (pkg/disk/nodeserver.go lines 616-623) -/

/-- Modelled from the spec: `disk.CheckDeviceAvailable` is not under src/;
per the specification, a device path computed by naming convention is
verified against the live device by comparing major/minor identifiers, a
mismatch being an error. The major/minor pairs of the live and expected
device enter as parameters. -/
def CheckDeviceAvailable (live expected : Nat × Nat) : Option String :=
  if live = expected then none else some "device mismatch"

/-- The verify-then-persist step of `NodeStageVolume` (disk/nodeserver.go
lines 616-623): a failed device check returns `codes.Internal` before
`saveVolumeConfig` runs; on success the Device Record is written and staging
continues (`none` outcome). `saveVolumeConfig` for pkg/disk is not under
src/; the ens implementation above stands in for it. -/
def diskStageVerifySave (live expected : Nat × Nat) (t volumeID device : String)
    (s : VolumeStore) : Option RpcErr × VolumeStore :=
  match CheckDeviceAvailable live expected with
  | some e => (some (.internal e), s)
  | none => (none, saveVolumeConfig t volumeID device s)

/-- The device-identity guard of the filesystem `NodePublishVolume` path
(disk/nodeserver.go lines 379-397): with the staging mount backed by
`realDevice` (not tmpfs), stat both the real and the expected device and
require equal major/minor; `devFor` is the `DevTmpFS.DevFor` oracle.
`none` means the check passed and publishing proceeds. -/
def publishDeviceCheck (realDevice expectName : String)
    (devFor : String → Except String (Nat × Nat)) : Option RpcErr :=
  if realDevice = "tmpfs" then none
  else
    if realDevice = "" then some (.internal "real device not same with expected")
    else
      match devFor realDevice with
      | .error e => some (.internal ("stat real failed: " ++ e))
      | .ok rm =>
        match devFor expectName with
        | .error e => some (.internal ("stat expect failed: " ++ e))
        | .ok em =>
          if rm = em then none
          else some (.internal "real device not same with expected")

/-! ## NodeExpandVolume (pkg/disk/nodeserver.go lines 882-983)

The auto-snapshot bookkeeping (log-and-delete on failure) has no effect on
the returned result and is omitted; everything that decides the outcome is
modelled: the raw-block fast path, the rund transfer, device resolution,
partition growth, filesystem resize and the final capacity check. -/

/-- Failure modes of `GetVolumeDeviceName`: the source distinguishes
`os.ErrNotExist` (mapped to `codes.NotFound`) from other errors
(`codes.Internal`). -/
inductive GetDevErr where
  | notExist
  | other (msg : String)

/-- Result of a lifecycle call: a response (for expand, its
`CapacityBytes` field, zero when the source leaves it unset) or an error. -/
inductive ExpandResult where
  | success (capacityBytes : Int)
  | failure (e : RpcErr)
deriving DecidableEq

/-- External facts a `NodeExpandVolume` call observes, as oracles. -/
structure ExpandEnv where
  requestBytes : Int
  volumePathIsBlock : Bool
  isRund : Bool
  rundErr : Option String
  deviceName : Except GetDevErr String
  rootAndIndex : Except String (String × String)
  growpart : Option String
  resize : Except String Bool
  capacityOf : String → Int

/-- The growpart output test of lines 937-944: a failed `growpart` is
forgiven only when its output reports `NOCHANGE` together with one of the
two at-maximum-size reasons. -/
def growpartAtMax (output : String) : Bool :=
  containsSub output.data "NOCHANGE".data &&
    (containsSub output.data "it cannot be grown".data ||
      containsSub output.data "could only be grown by".data)

/-- Function `NodeExpandVolume` (disk/nodeserver.go lines 882-983). The forgiven
no-change path returns the empty response (`CapacityBytes` unset, zero);
the normal path returns the measured block-device capacity, after the
final check that it is not smaller than the requested bytes. -/
def nodeExpandVolume (e : ExpandEnv) : ExpandResult :=
  if e.volumePathIsBlock then .success 0
  else if e.isRund then
    match e.rundErr with
    | none => .success 0
    | some m => .failure (.invalidArgument m)
  else
    match e.deviceName with
    | .error .notExist => .failure (.notFound "cannot get devicePath")
    | .error (.other m) => .failure (.internal m)
    | .ok devicePath =>
      match e.rootAndIndex with
      | .error m => .failure (.internal m)
      | .ok (_rp, index) =>
        let partStop : Option ExpandResult :=
          if index = "" then none
          else
            match e.growpart with
            | none => none
            | some output =>
              if growpartAtMax output then some (.success 0)
              else some (.failure (.invalidArgument ("expand volume failed: " ++ output)))
        match partStop with
        | some r => r
        | none =>
          match e.resize with
          | .error m => .failure (.internal m)
          | .ok false => .failure (.internal "Fail to resize volume fs")
          | .ok true =>
            let deviceCapacity := e.capacityOf devicePath
            if e.requestBytes > 0 && deviceCapacity < e.requestBytes then
              .failure (.aborted "requested size not updated yet")
            else .success deviceCapacity

/-! ## NodeStageVolume, ens flavour (pkg/ens/nodeserver.go lines 290-452)

Modelled from the point where the staging path was found unmounted (line
347): device resolution / attach, device check, Device Record write, and the
sysConfig loop. The mutations the claim about validation ordering speaks of
are tracked explicitly. -/

/-- Mutations performed by a stage call up to its outcome. -/
structure StageMutations where
  attached : Bool
  store : VolumeStore
  sysfsWrites : List (String × String)
deriving DecidableEq

/-- Oracles of one ens `NodeStageVolume` call. -/
structure EnsStageEnv where
  volumeID : String
  timestamp : String
  adController : Bool
  deviceByConvention : String
  attachResult : Except String String
  checkDevice : String → Option String
  sysConfig : Option String
  writeErr : String → String → Option String

/-- Outcome of the modelled stage section: a failure, or the device with
which staging proceeds to format-and-mount. -/
inductive StageStep where
  | failed (e : RpcErr)
  | proceed (device : String)
deriving DecidableEq

/-- The sysConfig loop (ens/nodeserver.go lines 377-398): each comma-split
entry must cut at an '=' and its cleaned write path
`filepath.Clean("/sys/block/" + filepath.Base(device) + "/" + key)` must stay
inside the device directory; then the value is written. Returns the error
that stopped the loop (if any) and the writes performed. Note (as the source
remarks) the prefix test cannot prevent reaching another device through
e.g. /sys/block/vda/subsystem/vdb; it only rejects relative-path escapes. -/
def applySysConfig (device : String) (writeErr : String → String → Option String) :
    List (List Char) → Option RpcErr × List (String × String)
  | [] => (none, [])
  | configStr :: rest =>
    match cutEq configStr with
    | none =>
      (some (.aborted ("Volume Block System Config with format error " ++ (⟨configStr⟩ : String))), [])
    | some (key, value) =>
      let base := "/sys/block/".data ++ filepathBase device.data ++ "/".data
      let fileName := pathClean (base ++ key)
      if base.isPrefixOf fileName then
        match writeErr (⟨fileName⟩ : String) (⟨value⟩ : String) with
        | some e => (some (.internal ("failed to write sysConfig: " ++ e)), [])
        | none =>
          let r := applySysConfig device writeErr rest
          (r.1, ((⟨fileName⟩ : String), (⟨value⟩ : String)) :: r.2)
      else
        (some (.aborted ("invalid relative path in sysConfig: " ++ (⟨key⟩ : String))), [])

/-- Specification vocabulary: an entry of the sysConfig list is rejected by
validation when it has no '=' or when its cleaned write path escapes the
device directory. -/
def sysEntryRejected (device : String) (c : List Char) : Bool :=
  match cutEq c with
  | none => true
  | some (key, _) =>
    let base := "/sys/block/".data ++ filepathBase device.data ++ "/".data
    !(base.isPrefixOf (pathClean (base ++ key)))

/-- The attach / verify / persist / sysConfig section of the ens
`NodeStageVolume` (lines 348-398), starting from an unmounted staging path.
With the attach-detach controller enabled the device comes from the naming
convention (the error check on that branch tests a stale `err` and is dead
code); otherwise `attachDisk` is called. A failed check or attach returns
before the Device Record is written; the sysConfig loop runs after it. -/
def ensStageCore (e : EnsStageEnv) (s0 : VolumeStore) : StageStep × StageMutations :=
  let resolved : Except RpcErr (String × Bool) :=
    if e.adController then .ok (e.deviceByConvention, false)
    else
      match e.attachResult with
      | .error m => .error (.aborted ("Attach volume with error: " ++ m))
      | .ok d => .ok (d, true)
  match resolved with
  | .error err => (.failed err, ⟨false, s0, []⟩)
  | .ok (device, attached) =>
    match e.checkDevice device with
    | some m => (.failed (.internal m), ⟨attached, s0, []⟩)
    | none =>
      let s1 := saveVolumeConfig e.timestamp e.volumeID device s0
      match e.sysConfig with
      | none => (.proceed device, ⟨attached, s1, []⟩)
      | some value =>
        let configList := splitOnChar ',' (trimSpace value.data)
        let r := applySysConfig device e.writeErr configList
        match r.1 with
        | some err => (.failed err, ⟨attached, s1, r.2⟩)
        | none => (.proceed device, ⟨attached, s1, r.2⟩)

/-! ## NodeUnstageVolume, detach section -/

/-- Outcome of the unstage detach section. -/
inductive UnstageOutcome where
  | ok
  | failed (e : RpcErr)
  | failedDetach (m : String)
deriving DecidableEq

/-- Oracles of the disk `NodeUnstageVolume` detach section. -/
structure DiskUnstageEnv where
  adControllerEnable : Bool
  detachDisabled : Bool
  ecsClient : Except String Unit
  detach : Except String Unit
  timestamp : String
  volumeID : String

/-- The detach section of the disk `NodeUnstageVolume` (disk/nodeserver.go
lines 809-828): nothing happens when the attach-detach controller owns
detach; with detach disabled the call returns immediately; otherwise the
disk is detached and only then `removeVolumeConfig` archives the record
(the pkg/disk `removeVolumeConfig` is not under src/; the ens implementation
stands in for it). Returns the outcome, the store, and whether a detach was
performed. -/
def diskUnstageDetach (e : DiskUnstageEnv) (s : VolumeStore) :
    UnstageOutcome × VolumeStore × Bool :=
  if e.adControllerEnable then (.ok, s, false)
  else
    if e.detachDisabled then (.ok, s, false)
    else
      match e.ecsClient with
      | .error m => (.failed (.internal m), s, false)
      | .ok _ =>
        match e.detach with
        | .error m => (.failedDetach m, s, false)
        | .ok _ => (.ok, removeVolumeConfig e.timestamp e.volumeID s, true)

/-- The detach section of the ens `NodeUnstageVolume` (ens/nodeserver.go
lines 517-530): detach and archive only when the attach-detach controller is
disabled (the flag is the string "false"); the disabled-detach early return
present in pkg/disk is commented out here. -/
def ensUnstageDetach (enableADController : String) (detach : Except String Unit)
    (t volumeID : String) (s : VolumeStore) : UnstageOutcome × VolumeStore × Bool :=
  if enableADController = "false" then
    match detach with
    | .error m => (.failedDetach m, s, false)
    | .ok _ => (.ok, removeVolumeConfig t volumeID s, true)
  else (.ok, s, false)

/-! ## Concrete instances used in witnesses and counterexamples -/

/-- A provider that recognizes no key. -/
def provA : Provider := fun _ => .unknownKey

/-- A provider that answers "zone-1" for every key. -/
def provB : Provider := fun _ => .ok "zone-1"

/-- A provider failing with a transient error. -/
def provE1 : Provider := fun _ => .err "timeout-1"

/-- Another provider failing with a transient error. -/
def provE2 : Provider := fun _ => .err "timeout-2"

/-- A lazy provider pinned to a ready backing provider. -/
def lazyPinnedW : LazyInitProvider := ⟨some provB, none, none⟩

/-- A stat oracle returning one fixed major/minor for every device path. -/
def devForW : String → Except String (Nat × Nat) := fun _ => .ok (253, 16)

/-- Expand call whose growpart fails with a no-change-at-maximum report
while the device capacity is positive. -/
def expandEnvAtMax : ExpandEnv :=
  ⟨21474836480, false, false, none, .ok "/dev/vdb1", .ok ("/dev/vdb", "1"),
    some "NOCHANGE: partition 1 is size 41940959. it cannot be grown",
    .ok true, fun _ => 21474836480⟩

/-- Expand call whose growpart fails with a no-change report carrying no
at-maximum-size reason. -/
def expandEnvNoChange : ExpandEnv :=
  ⟨21474836480, false, false, none, .ok "/dev/vdb1", .ok ("/dev/vdb", "1"),
    some "NOCHANGE: partition could not be resized",
    .ok true, fun _ => 21474836480⟩

/-- Expand call on a whole disk whose measured capacity still lags behind
the requested bytes. -/
def expandEnvLag : ExpandEnv :=
  ⟨200, false, false, none, .ok "/dev/vdb", .ok ("/dev/vdb", ""),
    none, .ok true, fun _ => 100⟩

/-- Expand call on a whole disk whose measured capacity satisfies the
request. -/
def expandEnvDone : ExpandEnv :=
  ⟨200, false, false, none, .ok "/dev/vdb", .ok ("/dev/vdb", ""),
    none, .ok true, fun _ => 200⟩

/-- An ens stage call whose sysConfig carries one good entry followed by a
malformed one (no '=') while attach, device check and the sysfs write all
succeed. -/
def ensStageEnvBad : EnsStageEnv :=
  ⟨"d-x", "t0", false, "", .ok "vdb", fun _ => none,
    some "queue/scheduler=none,bad", fun _ _ => none⟩

/-! ## Theorems -/

theorem hasMountOption_iff (l : List String) (o : String) :
    hasMountOption l o = true ↔ o ∈ l := by
  induction l with
  | nil => simp [hasMountOption]
  | cons a rest ih =>
    by_cases h : a = o
    · simp [hasMountOption, h]
    · simp only [hasMountOption, if_neg h, ih, List.mem_cons]
      constructor
      · exact Or.inr
      · rintro (h1 | h2)
        · exact absurd h1.symm h
        · exact h2

theorem hasMountOption_append_one (acc : List String) (o x : String) :
    hasMountOption (acc ++ [o]) x = (hasMountOption acc x || o = x) := by
  induction acc with
  | nil => simp [hasMountOption]
  | cons a rest ih =>
    by_cases h : a = x <;> simp [hasMountOption, h, ih]

theorem collectMountLoop_eq (l acc : List String) :
    collectMountLoop acc l = acc ++ dedupFirst (l.filter (fun x => !(hasMountOption acc x))) := by
  induction l generalizing acc with
  | nil => simp [collectMountLoop, dedupFirst]
  | cons o rest ih =>
    by_cases h : hasMountOption acc o = true
    · simp [collectMountLoop, h, List.filter_cons, ih]
    · have hb : hasMountOption acc o = false := by
        cases hx : hasMountOption acc o
        · rfl
        · exact absurd hx h
      have step1 : collectMountLoop acc (o :: rest) = collectMountLoop (acc ++ [o]) rest := by
        simp [collectMountLoop, hb]
      have step2 : (o :: rest).filter (fun x => !(hasMountOption acc x))
          = o :: rest.filter (fun x => !(hasMountOption acc x)) := by
        simp [List.filter_cons, hb]
      rw [step1, ih (acc ++ [o]), step2, dedupFirst, List.append_assoc,
        List.singleton_append]
      congr 2
      rw [List.filter_filter]
      congr 1
      apply List.filter_congr
      intro a _
      rw [hasMountOption_append_one]
      have hbeq : (a == o) = decide (o = a) := by
        by_cases hz : o = a
        · subst hz
          simp
        · have h2 : (a == o) = false := beq_eq_false_iff_ne.mpr (fun he => hz he.symm)
          simp [h2, hz]
      rw [hbeq]
      cases hy : hasMountOption acc a <;> cases hd : decide (o = a) <;>
        simp [Bool.not_or]

theorem collectMountLoop_nil_eq (l : List String) :
    collectMountLoop [] l = dedupFirst l := by
  rw [collectMountLoop_eq]
  simp [hasMountOption]

theorem mem_dedupFirst (l : List String) (y : String) (h : y ∈ dedupFirst l) : y ∈ l := by
  induction l using dedupFirst.induct with
  | case1 => simp [dedupFirst] at h
  | case2 x xs ih =>
    rw [dedupFirst] at h
    rcases List.mem_cons.mp h with h1 | h2
    · exact h1 ▸ List.mem_cons_self x xs
    · exact List.mem_cons_of_mem x (List.mem_of_mem_filter (ih h2))

theorem dedupFirst_nodup (l : List String) : (dedupFirst l).Nodup := by
  induction l using dedupFirst.induct with
  | case1 => simp [dedupFirst]
  | case2 x xs ih =>
    rw [dedupFirst]
    refine List.nodup_cons.mpr ⟨fun hx => ?_, ih⟩
    have := List.of_mem_filter (mem_dedupFirst _ _ hx)
    simp at this

/-- C5: for every list of mount flags and every fsType, the assembled
mount-option list preserves first-occurrence order with duplicates removed
(it equals the first-occurrence deduplication of the flags); when fsType is
"xfs" the option "nouuid" is appended exactly when absent and appears exactly
once; in particular the flags ["ro","ro","discard"] with fsType "xfs" yield
exactly ["ro","discard","nouuid"]. -/
theorem claim_C5_mount_options (mntFlags : List String) (fsType : String) :
    (collectMountOptions fsType mntFlags =
      if fsType = "xfs" then
        (if "nouuid" ∈ dedupFirst mntFlags then dedupFirst mntFlags
         else dedupFirst mntFlags ++ ["nouuid"])
      else dedupFirst mntFlags) ∧
    (collectMountOptions fsType mntFlags).Nodup ∧
    (collectMountOptions "xfs" mntFlags).count "nouuid" = 1 ∧
    collectMountOptions "xfs" ["ro", "ro", "discard"] = ["ro", "discard", "nouuid"] := by
  have hmain : ∀ ft : String, collectMountOptions ft mntFlags =
      if ft = "xfs" then
        (if "nouuid" ∈ dedupFirst mntFlags then dedupFirst mntFlags
         else dedupFirst mntFlags ++ ["nouuid"])
      else dedupFirst mntFlags := by
    intro ft
    have hopts : collectMountOptions ft mntFlags =
        (if ft = "xfs" then
          (if hasMountOption (dedupFirst mntFlags) NOUUID then dedupFirst mntFlags
           else dedupFirst mntFlags ++ [NOUUID])
         else dedupFirst mntFlags) := by
      simp only [collectMountOptions, collectMountLoop_nil_eq]
    rw [hopts]
    by_cases hft : ft = "xfs"
    · simp only [hft, if_true]
      by_cases hmem : "nouuid" ∈ dedupFirst mntFlags
      · have hT : hasMountOption (dedupFirst mntFlags) NOUUID = true :=
          (hasMountOption_iff (dedupFirst mntFlags) NOUUID).mpr hmem
        rw [if_pos hT, if_pos hmem]
      · have hF : ¬ (hasMountOption (dedupFirst mntFlags) NOUUID = true) := fun hx =>
          hmem ((hasMountOption_iff (dedupFirst mntFlags) NOUUID).mp hx)
        rw [if_neg hF, if_neg hmem]
        rfl
    · simp [hft]
  have hnodup : ∀ ft : String, (collectMountOptions ft mntFlags).Nodup := by
    intro ft
    rw [hmain ft]
    by_cases hft : ft = "xfs"
    · simp only [hft, if_true]
      by_cases hmem : "nouuid" ∈ dedupFirst mntFlags
      · simpa [hmem] using dedupFirst_nodup mntFlags
      · simp only [hmem, if_false]
        refine List.Nodup.append (dedupFirst_nodup mntFlags) (List.nodup_singleton _) ?_
        intro a ha hb
        simp at hb
        exact hmem (hb ▸ ha)
    · simpa [hft] using dedupFirst_nodup mntFlags
  refine ⟨hmain fsType, hnodup fsType, ?_, by decide⟩
  rw [hmain "xfs"]
  simp only [if_true]
  by_cases hmem : "nouuid" ∈ dedupFirst mntFlags
  · simp only [hmem, if_true]
    exact List.count_eq_one_of_mem (dedupFirst_nodup mntFlags) hmem
  · simp only [hmem, if_false]
    rw [List.count_append]
    rw [List.count_eq_zero_of_not_mem hmem]
    simp

theorem metadataGetLoop_value_iff (ps : List Provider) (k : MetadataKey) (v : String) :
    ∀ errs, (metadataGetLoop ps k errs = .value v ↔ firstValue ps k = some v) := by
  induction ps with
  | nil =>
    intro errs
    constructor
    · intro h
      by_cases he : errs.isEmpty <;> simp [metadataGetLoop, he] at h
    · intro h
      simp [firstValue] at h
  | cons p ps ih =>
    intro errs
    cases hp : p k with
    | ok w =>
      simp [metadataGetLoop, hp, firstValue, List.findSome?_cons]
    | unknownKey =>
      simp only [metadataGetLoop, hp]
      rw [ih errs]
      simp [firstValue, List.findSome?_cons, hp]
    | err e =>
      simp only [metadataGetLoop, hp]
      rw [ih (errs ++ [e])]
      simp [firstValue, List.findSome?_cons, hp]

theorem metadataGetLoop_of_no_value (ps : List Provider) (k : MetadataKey)
    (h : firstValue ps k = none) :
    ∀ errs, metadataGetLoop ps k errs =
      if (errs ++ collectErrors ps k).isEmpty then .unknownKey
      else .aggregate (errs ++ collectErrors ps k) := by
  induction ps with
  | nil =>
    intro errs
    simp [metadataGetLoop, collectErrors]
  | cons p ps ih =>
    intro errs
    cases hp : p k with
    | ok w =>
      exfalso
      simp [firstValue, List.findSome?_cons, hp] at h
    | unknownKey =>
      have h2 : firstValue ps k = none := by
        simpa [firstValue, List.findSome?_cons, hp] using h
      simp only [metadataGetLoop, hp]
      rw [ih h2 errs]
      simp [collectErrors, List.filterMap_cons, hp]
    | err e =>
      have h2 : firstValue ps k = none := by
        simpa [firstValue, List.findSome?_cons, hp] using h
      simp only [metadataGetLoop, hp]
      rw [ih h2 (errs ++ [e])]
      simp [collectErrors, List.filterMap_cons, hp, List.append_assoc]

/-- C1: `Metadata.Get` returns the value of the first provider in configured
order that returns a value; providers answering unknown-key are skipped
without contributing an error; if no provider recognizes the key the result
is the unknown-key error; if at least one provider recognized the key but
every such attempt failed, the result is the aggregate of the collected
errors, not the unknown-key error. -/
theorem claim_C1_metadata_fallback (ps : List Provider) (k : MetadataKey) :
    (∀ v, metadataGet ps k = .value v ↔ firstValue ps k = some v) ∧
    (firstValue ps k = none → collectErrors ps k = [] → metadataGet ps k = .unknownKey) ∧
    (firstValue ps k = none → collectErrors ps k ≠ [] →
      metadataGet ps k = .aggregate (collectErrors ps k) ∧
        metadataGet ps k ≠ .unknownKey) := by
  refine ⟨fun v => metadataGetLoop_value_iff ps k v [], ?_, ?_⟩
  · intro hnone hempty
    unfold metadataGet
    rw [metadataGetLoop_of_no_value ps k hnone []]
    simp [hempty]
  · intro hnone hne
    unfold metadataGet
    rw [metadataGetLoop_of_no_value ps k hnone []]
    have : ¬ (collectErrors ps k).isEmpty := by
      cases hc : collectErrors ps k
      · exact absurd hc hne
      · simp
    constructor
    · simp [this]
    · simp only [List.nil_append]
      intro hcontra
      by_cases hx : (collectErrors ps k).isEmpty <;> simp [hx] at hcontra
      exact this hx

/-- Witness for C1 at concrete provider chains: unknown-key providers are
skipped and the first value wins; two failing providers aggregate; all
unknown yields the unknown-key result. -/
theorem claim_C1_witness :
    metadataGet [provA, provB] .zoneID = .value "zone-1" ∧
    metadataGet [provE1, provE2] .zoneID = .aggregate ["timeout-1", "timeout-2"] ∧
    metadataGet [provA, provA] .zoneID = .unknownKey := by
  refine ⟨?_, ?_, ?_⟩
  · exact ((claim_C1_metadata_fallback [provA, provB] .zoneID).1 "zone-1").mpr rfl
  · exact ((claim_C1_metadata_fallback [provE1, provE2] .zoneID).2.2 rfl
      (by simp [collectErrors, provE1, provE2])).1
  · exact (claim_C1_metadata_fallback [provA, provA] .zoneID).2.1 rfl rfl

theorem lazyGet_pinned (s : LazyInitProvider) (k : MetadataKey) (h : pinned s = true) :
    lazyGet s k = (lazyTailGet s.provider s.err k, s) := by
  obtain ⟨p, e, f⟩ := s
  unfold pinned at h
  unfold lazyGet
  cases p <;> cases e <;> simp_all

theorem lazyRun_pinned (s : LazyInitProvider) (ks : List MetadataKey)
    (h : pinned s = true) : (lazyRun s ks).2 = s := by
  induction ks with
  | nil => rfl
  | cons k ks ih =>
    simp only [lazyRun]
    rw [lazyGet_pinned s k h]
    exact ih

theorem pinCount_pinned (s : LazyInitProvider) (ks : List MetadataKey)
    (h : pinned s = true) : pinCount s ks = 0 := by
  induction ks with
  | nil => rfl
  | cons k ks ih =>
    simp only [pinCount]
    rw [lazyGet_pinned s k h]
    simp [h, ih]

theorem pinCount_le_one (s : LazyInitProvider) (ks : List MetadataKey) :
    pinCount s ks ≤ 1 := by
  induction ks generalizing s with
  | nil => exact Nat.zero_le 1
  | cons k ks ih =>
    by_cases hp : pinned s = true
    · rw [pinCount_pinned s (k :: ks) hp]
      exact Nat.zero_le 1
    · simp only [pinCount]
      have hp2 : pinned s = false := by
        cases hx : pinned s
        · rfl
        · exact absurd hx hp
      cases hq : pinned (lazyGet s k).2
      · simp only [Bool.and_false, Bool.false_eq_true, if_false, Nat.zero_add]
        exact ih (lazyGet s k).2
      · rw [pinCount_pinned _ ks hq]
        simp [hp2]

/-- C3: for a lazily-initialized provider, construction is at most once and
its outcome is pinned: a pinned state answers every later `Get` from the
pinned outcome without touching the fetcher and without changing state, a
whole trace of `Get` calls leaves a pinned state untouched and performs no
further construction, and along any trace at most one construction
completes. -/
theorem claim_C3_lazy_init (s : LazyInitProvider) (k : MetadataKey)
    (ks : List MetadataKey) :
    (pinned s = true → lazyGet s k = (lazyTailGet s.provider s.err k, s)) ∧
    (pinned s = true → (lazyRun s ks).2 = s ∧ pinCount s ks = 0) ∧
    pinCount s ks ≤ 1 := by
  exact ⟨lazyGet_pinned s k, fun h => ⟨lazyRun_pinned s ks h, pinCount_pinned s ks h⟩,
    pinCount_le_one s ks⟩

/-- Witness for C3 at a concrete pinned provider and a concrete trace. -/
theorem claim_C3_witness :
    lazyGet lazyPinnedW .zoneID
      = (lazyTailGet lazyPinnedW.provider lazyPinnedW.err .zoneID, lazyPinnedW) ∧
    (lazyRun lazyPinnedW [.zoneID, .regionID]).2 = lazyPinnedW ∧
    pinCount lazyPinnedW [.zoneID, .regionID] = 0 := by
  have h := claim_C3_lazy_init lazyPinnedW .zoneID [.zoneID, .regionID]
  exact ⟨h.1 rfl, (h.2.1 rfl).1, (h.2.1 rfl).2⟩

theorem consults_sizeOf {p q : MProvider} (h : Consults p q) : sizeOf q < sizeOf p := by
  induction h with
  | direct hm =>
    have h1 := List.sizeOf_lt_of_mem hm
    simp only [MProvider.openAPI.sizeOf_spec]
    omega
  | indirect hm _ ih =>
    have h1 := List.sizeOf_lt_of_mem hm
    simp only [MProvider.openAPI.sizeOf_spec]
    omega

theorem applyEnables_providers_prefix (m : Metadata) (ops : List EnableOp) :
    ∃ suffix, (applyEnables m ops).providers = m.providers ++ suffix := by
  induction ops generalizing m with
  | nil => exact ⟨[], by simp [applyEnables]⟩
  | cons op ops ih =>
    have hstep : ∃ s0, (applyEnable m op).providers = m.providers ++ s0 := by
      cases op with
      | ecs d p =>
        cases d
        · exact ⟨[.plain p], rfl⟩
        · exact ⟨[], by simp [applyEnable, Metadata.enableEcs]⟩
      | kubernetes n p =>
        cases n
        · exact ⟨[], by simp [applyEnable, Metadata.enableKubernetes]⟩
        · exact ⟨[.plain p], rfl⟩
      | openAPI api => exact ⟨[.openAPI m.providers api], rfl⟩
    obtain ⟨s0, h0⟩ := hstep
    obtain ⟨s1, h1⟩ := ih (applyEnable m op)
    refine ⟨s0 ++ s1, ?_⟩
    simp only [applyEnables, List.foldl_cons] at *
    rw [h1, h0, List.append_assoc]

/-- C4: `EnableOpenAPI` hands the control-plane provider exactly the chain
registered before it was added; appending further providers afterwards never
changes that snapshot (the element keeps its captured chain), the provider
is not part of its own snapshot, and its `Get` can never consult itself,
directly or transitively. -/
theorem claim_C4_openapi_snapshot (m : Metadata)
    (api : String → String → MetadataKey → PResult) (ops : List EnableOp) :
    (m.enableOpenAPI api).providers = m.providers ++ [.openAPI m.providers api] ∧
    (applyEnables (m.enableOpenAPI api) ops).providers[m.providers.length]? =
      some (.openAPI m.providers api) ∧
    MProvider.openAPI m.providers api ∉ m.providers ∧
    ¬ Consults (.openAPI m.providers api) (.openAPI m.providers api) := by
  refine ⟨rfl, ?_, ?_, ?_⟩
  · obtain ⟨suffix, hs⟩ := applyEnables_providers_prefix (m.enableOpenAPI api) ops
    rw [hs]
    have : (m.enableOpenAPI api).providers ++ suffix
        = m.providers ++ (MProvider.openAPI m.providers api :: suffix) := by
      simp [Metadata.enableOpenAPI]
    rw [this]
    rw [List.getElem?_append_right (Nat.le_refl _)]
    simp
  · intro hm
    have h1 := List.sizeOf_lt_of_mem hm
    simp only [MProvider.openAPI.sizeOf_spec] at h1
    omega
  · intro h
    exact absurd (consults_sizeOf h) (lt_irrefl _)

theorem lookupAssoc_setAssoc_self (k v : String) (l : List (String × String)) :
    lookupAssoc k (setAssoc k v l) = some v := by
  induction l with
  | nil => simp [setAssoc, lookupAssoc]
  | cons a rest ih =>
    obtain ⟨ak, av⟩ := a
    by_cases h : ak = k
    · simp [setAssoc, lookupAssoc, h]
    · simp [setAssoc, lookupAssoc, h, ih]

theorem setAssoc_fresh (k v : String) (l : List (String × String))
    (h : k ∉ keysOf l) : setAssoc k v l = l ++ [(k, v)] := by
  induction l with
  | nil => rfl
  | cons a rest ih =>
    obtain ⟨ak, av⟩ := a
    have h1 : ak ≠ k := by
      intro he
      exact h (by simp [keysOf, he])
    have h2 : k ∉ keysOf rest := fun hm => h (by simp [keysOf] at hm ⊢; exact Or.inr hm)
    simp [setAssoc, h1, ih h2]

theorem keysOf_cons (a : String × String) (l : List (String × String)) :
    keysOf (a :: l) = a.1 :: keysOf l := rfl

theorem keysOf_setAssoc (k v : String) (l : List (String × String)) :
    keysOf (setAssoc k v l) = if k ∈ keysOf l then keysOf l else keysOf l ++ [k] := by
  induction l with
  | nil => simp [setAssoc, keysOf]
  | cons a rest ih =>
    obtain ⟨ak, av⟩ := a
    by_cases hk : ak = k
    · subst hk
      simp [setAssoc, keysOf_cons]
    · have hne : k ≠ ak := fun he => hk he.symm
      simp only [setAssoc, if_neg hk, keysOf_cons]
      rw [ih]
      by_cases hm : k ∈ keysOf rest
      · rw [if_pos hm, if_pos (List.mem_cons_of_mem ak hm)]
      · have hnm : k ∉ (ak :: keysOf rest) := by
          rw [List.mem_cons]
          rintro (h1 | h2)
          · exact hne h1
          · exact hm h2
        rw [if_neg hm, if_neg hnm, List.cons_append]

theorem mem_keysOf_setAssoc (k v n : String) (l : List (String × String))
    (h : n ∈ keysOf l) : n ∈ keysOf (setAssoc k v l) := by
  rw [keysOf_setAssoc]
  by_cases hm : k ∈ keysOf l
  · rwa [if_pos hm]
  · rw [if_neg hm]
    exact List.mem_append_left _ h

theorem keysOf_setAssoc_nodup (k v : String) (l : List (String × String))
    (h : (keysOf l).Nodup) : (keysOf (setAssoc k v l)).Nodup := by
  rw [keysOf_setAssoc]
  by_cases hm : k ∈ keysOf l
  · rwa [if_pos hm]
  · rw [if_neg hm]
    refine List.nodup_append.mpr ⟨h, List.nodup_singleton _, ?_⟩
    intro a ha hb
    rw [List.mem_singleton] at hb
    exact hm (hb ▸ ha)

theorem eraseAssoc_sublist (k : String) (l : List (String × String)) :
    (eraseAssoc k l).Sublist l := by
  induction l with
  | nil => simp [eraseAssoc]
  | cons a rest ih =>
    obtain ⟨ak, av⟩ := a
    by_cases hk : ak = k
    · simpa [eraseAssoc, hk] using ih.cons (ak, av)
    · simpa [eraseAssoc, hk] using ih.cons₂ (ak, av)

theorem storeWF_removeVolumeConfig (t id : String) (s : VolumeStore)
    (h : storeWF s) : storeWF (removeVolumeConfig t id s) := by
  unfold removeVolumeConfig
  cases hl : lookupAssoc (id ++ ".conf") s.live with
  | none => exact h
  | some content =>
    refine ⟨?_, keysOf_setAssoc_nodup _ _ _ h.2⟩
    exact List.Nodup.sublist ((eraseAssoc_sublist _ _).map Prod.fst) h.1

theorem storeWF_saveVolumeConfig (t id dev : String) (s : VolumeStore)
    (h : storeWF s) : storeWF (saveVolumeConfig t id dev s) := by
  have h1 := storeWF_removeVolumeConfig t id s h
  exact ⟨keysOf_setAssoc_nodup _ _ _ h1.1, h1.2⟩

theorem storeWF_applyRecordOp (s : VolumeStore) (op : RecordOp)
    (h : storeWF s) : storeWF (applyRecordOp s op) := by
  cases op with
  | save t id dev => exact storeWF_saveVolumeConfig t id dev s h
  | archive t id => exact storeWF_removeVolumeConfig t id s h

theorem storeWF_applyRecordOps (s : VolumeStore) (ops : List RecordOp)
    (h : storeWF s) : storeWF (applyRecordOps s ops) := by
  induction ops generalizing s with
  | nil => exact h
  | cons op ops ih => exact ih (applyRecordOp s op) (storeWF_applyRecordOp s op h)

theorem archive_keys_applyRecordOp (s : VolumeStore) (op : RecordOp) (n : String)
    (h : n ∈ keysOf s.archive) : n ∈ keysOf (applyRecordOp s op).archive := by
  cases op with
  | save t id dev =>
    simp only [applyRecordOp, saveVolumeConfig, removeVolumeConfig]
    cases hl : lookupAssoc (id ++ ".conf") s.live
    · exact h
    · exact mem_keysOf_setAssoc _ _ _ _ h
  | archive t id =>
    simp only [applyRecordOp, removeVolumeConfig]
    cases hl : lookupAssoc (id ++ ".conf") s.live
    · exact h
    · exact mem_keysOf_setAssoc _ _ _ _ h

theorem archive_keys_applyRecordOps (s : VolumeStore) (ops : List RecordOp) (n : String)
    (h : n ∈ keysOf s.archive) : n ∈ keysOf (applyRecordOps s ops).archive := by
  induction ops generalizing s with
  | nil => exact h
  | cons op ops ih =>
    exact ih (applyRecordOp s op) (archive_keys_applyRecordOp s op n h)

theorem archiveName_inj_timestamp (id t1 t2 : String)
    (h : archiveName id t1 = archiveName id t2) : t1 = t2 := by
  unfold archiveName at h
  have hd : (id ++ "-").data ++ (t1.data ++ ".conf".data)
      = (id ++ "-").data ++ (t2.data ++ ".conf".data) := by
    have := congrArg String.data h
    simpa [String.data_append, List.append_assoc] using this
  have h2 := List.append_cancel_left hd
  have h3 := List.append_cancel_right h2
  cases t1 with
  | mk d1 =>
    cases t2 with
    | mk d2 =>
      have h4 : d1 = d2 := by simpa using h3
      rw [h4]

/-- C6: writing a new Device Record first archives any existing one; the
archived record is placed in the removal directory under the
volume-ID-and-timestamp name; archive entries, once present, are never
removed by any store operation; the store keeps at most one live record per
file name; and with a fresh timestamped name (distinct timestamps for the
same ID give distinct names) archival appends without overwriting any
existing archive entry. -/
theorem claim_C6_record_archive (ops : List RecordOp) (s : VolumeStore)
    (t id dev old n t1 t2 : String) :
    ((keysOf (applyRecordOps emptyStore ops).live).count n ≤ 1) ∧
    (lookupAssoc (id ++ ".conf") s.live = some old →
      lookupAssoc (archiveName id t) (saveVolumeConfig t id dev s).archive = some old) ∧
    (∀ op, n ∈ keysOf s.archive → n ∈ keysOf (applyRecordOp s op).archive) ∧
    (n ∈ keysOf s.archive → n ∈ keysOf (applyRecordOps s ops).archive) ∧
    (lookupAssoc (id ++ ".conf") s.live = some old →
      archiveName id t ∉ keysOf s.archive →
      (removeVolumeConfig t id s).archive = s.archive ++ [(archiveName id t, old)]) ∧
    (archiveName id t1 = archiveName id t2 → t1 = t2) := by
  refine ⟨?_, ?_, ?_, ?_, ?_, archiveName_inj_timestamp id t1 t2⟩
  · have hwf := storeWF_applyRecordOps emptyStore ops ⟨List.nodup_nil, List.nodup_nil⟩
    exact List.nodup_iff_count_le_one.mp hwf.1 n
  · intro hl
    simp only [saveVolumeConfig, removeVolumeConfig, hl]
    exact lookupAssoc_setAssoc_self _ _ _
  · exact fun op => archive_keys_applyRecordOp s op n
  · exact archive_keys_applyRecordOps s ops n
  · intro hl hfresh
    simp only [removeVolumeConfig, hl]
    exact setAssoc_fresh _ _ _ hfresh

/-- Counterexample for C6 as originally stated: two archivals of the same
volume ID in the same second produce the same archive name, and the second
rename silently replaces the first archived record (devA is lost). -/
theorem claim_C6_counterexample :
    ("vol-t1.conf", "devA") ∈
      (applyRecordOps emptyStore
        [.save "t1" "vol" "devA", .archive "t1" "vol"]).archive ∧
    ("vol-t1.conf", "devA") ∉
      (applyRecordOps emptyStore
        [.save "t1" "vol" "devA", .archive "t1" "vol",
         .save "t1" "vol" "devB", .archive "t1" "vol"]).archive := by
  decide

/-- Witness for C6 at a concrete store: archival of a live record lands in
the archive under the timestamped name, preserving the existing entries. -/
theorem claim_C6_witness :
    lookupAssoc (archiveName "vol" "t9")
        (saveVolumeConfig "t9" "vol" "devNew"
          ⟨[("vol.conf", "devOld")], []⟩).archive = some "devOld" ∧
    (removeVolumeConfig "t9" "vol" ⟨[("vol.conf", "devOld")], [("vol-t1.conf", "devA")]⟩).archive
      = [("vol-t1.conf", "devA")] ++ [(archiveName "vol" "t9", "devOld")] := by
  constructor
  · exact (claim_C6_record_archive [] ⟨[("vol.conf", "devOld")], []⟩
      "t9" "vol" "devNew" "devOld" "n" "a" "b").2.1 (by decide)
  · exact (claim_C6_record_archive [] ⟨[("vol.conf", "devOld")], [("vol-t1.conf", "devA")]⟩
      "t9" "vol" "devNew" "devOld" "n" "a" "b").2.2.2.2.1 (by decide) (by decide)

/-- C2: in the Stage path, a device check failure (per the specification, a
major/minor mismatch of the live device against the expected device) yields
the non-retryable Internal code and leaves the Device Record store
untouched, while a passing check writes the record; in the filesystem
Publish path, whenever the device backing the staging mount is not the
in-memory filesystem tmpfs, publishing proceeds exactly when the real and
the expected device stat to the same major/minor pair. -/
theorem claim_C2_device_verify (live expected : Nat × Nat) (t id dev : String)
    (s : VolumeStore) (realDevice expectName : String)
    (devFor : String → Except String (Nat × Nat)) :
    (live ≠ expected →
      diskStageVerifySave live expected t id dev s
        = (some (.internal "device mismatch"), s)) ∧
    (live = expected →
      diskStageVerifySave live expected t id dev s
        = (none, saveVolumeConfig t id dev s)) ∧
    (realDevice ≠ "tmpfs" →
      (publishDeviceCheck realDevice expectName devFor = none ↔
        realDevice ≠ "" ∧ ∃ mm, devFor realDevice = .ok mm ∧ devFor expectName = .ok mm)) := by
  refine ⟨?_, ?_, ?_⟩
  · intro h
    simp [diskStageVerifySave, CheckDeviceAvailable, h]
  · intro h
    simp [diskStageVerifySave, CheckDeviceAvailable, h]
  · intro h
    simp only [publishDeviceCheck, if_neg h]
    by_cases h0 : realDevice = ""
    · simp [h0]
    · simp only [if_neg h0]
      cases hr : devFor realDevice with
      | error e => simp [h0]
      | ok rm =>
        cases he : devFor expectName with
        | error e2 => simp [h0]
        | ok em =>
          by_cases hm : rm = em
          · subst hm
            simp [h0]
          · refine iff_of_false (by simp [hm]) ?_
            rintro ⟨-, mm, h1, h2⟩
            have e1 : rm = mm := by
              cases h1
              rfl
            have e2 : em = mm := by
              cases h2
              rfl
            exact hm (e1.trans e2.symm)

/-- Witness for C2: a mismatching pair fails with Internal and an unchanged
store; matching stats let the publish check pass. -/
theorem claim_C2_witness :
    diskStageVerifySave (253, 16) (8, 0) "t" "d-1" "/dev/vdb" emptyStore
      = (some (.internal "device mismatch"), emptyStore) ∧
    publishDeviceCheck "/dev/vdc" "/dev/vdb" devForW = none := by
  constructor
  · exact (claim_C2_device_verify (253, 16) (8, 0) "t" "d-1" "/dev/vdb" emptyStore
      "/dev/vdc" "/dev/vdb" devForW).1 (by decide)
  · exact ((claim_C2_device_verify (253, 16) (8, 0) "t" "d-1" "/dev/vdb" emptyStore
      "/dev/vdc" "/dev/vdb" devForW).2.2 (by decide)).mpr
      ⟨by decide, (253, 16), rfl, rfl⟩

/-- C7 (amended): in the partition-growth step of Expand, a failed growpart
reporting no change is forgiven exactly when an at-maximum-size reason
accompanies it, in which case the call succeeds with an empty response
(capacity left unset, zero) rather than the measured capacity; any other
growpart failure fails the call. -/
theorem claim_C7_growpart_nochange (e : ExpandEnv) (d rp idx output : String)
    (h1 : e.volumePathIsBlock = false) (h2 : e.isRund = false)
    (h3 : e.deviceName = .ok d) (h4 : e.rootAndIndex = .ok (rp, idx))
    (h5 : idx ≠ "") (h6 : e.growpart = some output) :
    (growpartAtMax output = true → nodeExpandVolume e = .success 0) ∧
    (growpartAtMax output = false →
      nodeExpandVolume e
        = .failure (.invalidArgument ("expand volume failed: " ++ output))) := by
  constructor
  · intro hg
    simp [nodeExpandVolume, h1, h2, h3, h4, h5, h6, hg]
  · intro hg
    simp [nodeExpandVolume, h1, h2, h3, h4, h5, h6, hg]

/-- Witness for C7 at two concrete growpart outputs: the at-maximum report
yields success with the empty response; an unexplained no-change report
fails the call. -/
theorem claim_C7_witness :
    nodeExpandVolume expandEnvAtMax = .success 0 ∧
    nodeExpandVolume expandEnvNoChange
      = .failure (.invalidArgument
          ("expand volume failed: " ++ "NOCHANGE: partition could not be resized")) := by
  constructor
  · exact (claim_C7_growpart_nochange expandEnvAtMax "/dev/vdb1" "/dev/vdb" "1"
      "NOCHANGE: partition 1 is size 41940959. it cannot be grown"
      rfl rfl rfl rfl (by decide) rfl).1 (by decide)
  · exact (claim_C7_growpart_nochange expandEnvNoChange "/dev/vdb1" "/dev/vdb" "1"
      "NOCHANGE: partition could not be resized"
      rfl rfl rfl rfl (by decide) rfl).2 (by decide)

/-- Counterexample for C7 as originally stated: on the forgiven
no-change-at-maximum path the response carries no capacity (zero), not the
existing device capacity, which here is nonzero. -/
theorem claim_C7_counterexample :
    nodeExpandVolume expandEnvAtMax = .success 0 ∧
    expandEnvAtMax.capacityOf "/dev/vdb1" = 21474836480 ∧
    nodeExpandVolume expandEnvAtMax
      ≠ .success (expandEnvAtMax.capacityOf "/dev/vdb1") := by
  refine ⟨by decide, by decide, by decide⟩

/-- C8: after a successful filesystem resize, a positive requested byte
count still exceeding the measured device capacity fails with the retryable
Aborted code (not the fatal Internal one); a capacity at least the request
succeeds and reports the device capacity. -/
theorem claim_C8_expand_capacity (e : ExpandEnv) (d rp idx : String)
    (h1 : e.volumePathIsBlock = false) (h2 : e.isRund = false)
    (h3 : e.deviceName = .ok d) (h4 : e.rootAndIndex = .ok (rp, idx))
    (h5 : idx = "" ∨ e.growpart = none) (h6 : e.resize = .ok true) :
    (e.requestBytes > 0 → e.capacityOf d < e.requestBytes →
      nodeExpandVolume e = .failure (.aborted "requested size not updated yet")) ∧
    (e.capacityOf d ≥ e.requestBytes →
      nodeExpandVolume e = .success (e.capacityOf d)) := by
  have hpart : (if idx = "" then none
      else match e.growpart with
        | none => none
        | some output =>
          if growpartAtMax output then some (ExpandResult.success 0)
          else some (.failure (.invalidArgument ("expand volume failed: " ++ output))))
      = (none : Option ExpandResult) := by
    rcases h5 with h5 | h5
    · simp [h5]
    · by_cases hi : idx = ""
      · simp [hi]
      · simp [hi, h5]
  constructor
  · intro hq hc
    have hcond : (e.requestBytes > 0 && e.capacityOf d < e.requestBytes) = true := by
      simp [hq, hc]
    simp [nodeExpandVolume, h1, h2, h3, h4, h6, hpart, hcond]
  · intro hc
    have hcond : (e.requestBytes > 0 && e.capacityOf d < e.requestBytes) = false := by
      have : ¬ (e.capacityOf d < e.requestBytes) := not_lt.mpr hc
      simp [this]
    simp [nodeExpandVolume, h1, h2, h3, h4, h6, hpart, hcond]

/-- Witness for C8 at concrete capacities: 100 < 200 requested is Aborted;
200 at 200 requested succeeds reporting 200. -/
theorem claim_C8_witness :
    nodeExpandVolume expandEnvLag = .failure (.aborted "requested size not updated yet") ∧
    nodeExpandVolume expandEnvDone = .success 200 := by
  constructor
  · exact (claim_C8_expand_capacity expandEnvLag "/dev/vdb" "/dev/vdb" ""
      rfl rfl rfl rfl (Or.inl rfl) rfl).1 (by decide) (by decide)
  · exact (claim_C8_expand_capacity expandEnvDone "/dev/vdb" "/dev/vdb" ""
      rfl rfl rfl rfl (Or.inl rfl) rfl).2 (by decide)

theorem applySysConfig_rejected (device : String) (w : String → String → Option String) :
    ∀ l : List (List Char), (∃ c ∈ l, sysEntryRejected device c = true) →
      (applySysConfig device w l).1.isSome = true := by
  intro l
  induction l with
  | nil =>
    rintro ⟨c, hc, -⟩
    simp at hc
  | cons c rest ih =>
    rintro ⟨c0, hc0, hrej⟩
    cases hcut : cutEq c with
    | none => simp [applySysConfig, hcut]
    | some kv =>
      obtain ⟨key, val⟩ := kv
      simp only [applySysConfig, hcut]
      split
      · rename_i hpre
        cases hw : w (⟨pathClean (("/sys/block/".data ++ filepathBase device.data
            ++ "/".data) ++ key)⟩ : String) (⟨val⟩ : String) with
        | some e2 => simp [hw]
        | none =>
          simp only [hw, Option.isSome]
          rcases List.mem_cons.mp hc0 with h1 | h2
          · exfalso
            subst h1
            simp only [sysEntryRejected, hcut, Bool.not_eq_true'] at hrej
            simp only [List.cons_append, List.append_assoc] at hpre hrej
            rw [hrej] at hpre
            exact Bool.false_ne_true hpre
          · exact ih ⟨c0, h2, hrej⟩
      · simp

/-- C9 (amended): a malformed sysConfig entry (no '=') or a path-escaping
key makes the ens Stage call fail, but the rejection happens during the
sysConfig application step, after the attach has been performed and after
the Device Record has been written; sysfs writes made for entries preceding
the offending one remain applied, and any list containing a rejected entry
fails the sysConfig step. -/
theorem claim_C9_sysconfig (e : EnsStageEnv) (s0 : VolumeStore) (d value : String)
    (err : RpcErr)
    (hAD : e.adController = false) (hAttach : e.attachResult = .ok d)
    (hchk : e.checkDevice d = none) (hsc : e.sysConfig = some value)
    (hfail : (applySysConfig d e.writeErr
      (splitOnChar ',' (trimSpace value.data))).1 = some err) :
    ensStageCore e s0
      = (.failed err,
          ⟨true, saveVolumeConfig e.timestamp e.volumeID d s0,
            (applySysConfig d e.writeErr (splitOnChar ',' (trimSpace value.data))).2⟩) ∧
    (∀ l : List (List Char), (∃ c ∈ l, sysEntryRejected d c = true) →
      (applySysConfig d e.writeErr l).1.isSome = true) := by
  constructor
  · simp [ensStageCore, hAD, hAttach, hchk, hsc, hfail]
  · exact applySysConfig_rejected d e.writeErr

/-- Witness for C9 at a concrete call: the stage section fails on the
malformed second entry, with the attach done, the record written, and the
first entry's sysfs write applied. -/
theorem claim_C9_witness :
    ensStageCore ensStageEnvBad emptyStore
      = (.failed (.aborted ("Volume Block System Config with format error " ++ "bad")),
          ⟨true, saveVolumeConfig "t0" "d-x" "vdb" emptyStore,
            (applySysConfig "vdb" ensStageEnvBad.writeErr
              (splitOnChar ',' (trimSpace "queue/scheduler=none,bad".data))).2⟩) ∧
    (applySysConfig "vdb" ensStageEnvBad.writeErr ["bad".data]).1.isSome = true := by
  constructor
  · exact (claim_C9_sysconfig ensStageEnvBad emptyStore "vdb" "queue/scheduler=none,bad"
      (.aborted ("Volume Block System Config with format error " ++ "bad"))
      rfl rfl rfl rfl (by decide)).1
  · exact (claim_C9_sysconfig ensStageEnvBad emptyStore "vdb" "queue/scheduler=none,bad"
      (.aborted ("Volume Block System Config with format error " ++ "bad"))
      rfl rfl rfl rfl (by decide)).2 ["bad".data] ⟨"bad".data, by decide, by decide⟩

/-- Counterexample for C9 as originally stated: the malformed entry is
rejected, but not before mutation — the attach has happened, the Device
Record is on disk, and the preceding entry's sysfs value has been
written. -/
theorem claim_C9_counterexample :
    (ensStageCore ensStageEnvBad emptyStore).1
      = .failed (.aborted ("Volume Block System Config with format error " ++ "bad")) ∧
    (ensStageCore ensStageEnvBad emptyStore).2.attached = true ∧
    (ensStageCore ensStageEnvBad emptyStore).2.store.live = [("d-x.conf", "vdb")] ∧
    (ensStageCore ensStageEnvBad emptyStore).2.sysfsWrites
      = [("/sys/block/vdb/queue/scheduler", "none")] := by
  refine ⟨by decide, by decide, by decide, by decide⟩

/-- C10 (amended): the Unstage detach section archives the Device Record
exactly when this component performs the detach itself; when attach/detach
is delegated to the external controller, or detach is disabled, the call
succeeds without touching the record, in both the disk and the ens
flavour. -/
theorem claim_C10_unstage_archive (e : DiskUnstageEnv) (s : VolumeStore)
    (enableADC : String) (detach2 : Except String Unit) (t id : String) :
    (e.adControllerEnable = true → diskUnstageDetach e s = (.ok, s, false)) ∧
    (e.adControllerEnable = false → e.detachDisabled = true →
      diskUnstageDetach e s = (.ok, s, false)) ∧
    (e.adControllerEnable = false → e.detachDisabled = false →
      e.ecsClient = .ok () → e.detach = .ok () →
      diskUnstageDetach e s
        = (.ok, removeVolumeConfig e.timestamp e.volumeID s, true)) ∧
    (enableADC ≠ "false" →
      ensUnstageDetach enableADC detach2 t id s = (.ok, s, false)) ∧
    (detach2 = .ok () →
      ensUnstageDetach "false" detach2 t id s = (.ok, removeVolumeConfig t id s, true)) := by
  refine ⟨?_, ?_, ?_, ?_, ?_⟩
  · intro h
    simp [diskUnstageDetach, h]
  · intro h1 h2
    simp [diskUnstageDetach, h1, h2]
  · intro h1 h2 h3 h4
    simp [diskUnstageDetach, h1, h2, h3, h4]
  · intro h
    simp [ensUnstageDetach, h]
  · intro h
    simp [ensUnstageDetach, h]

/-- Counterexample for C10 as originally stated: with detach delegated to
the attach-detach controller (disk and ens flavours) or detach disabled,
Unstage succeeds yet the live Device Record stays in place and nothing is
archived. -/
theorem claim_C10_counterexample :
    diskUnstageDetach ⟨true, false, .ok (), .ok (), "t", "d-1"⟩
        ⟨[("d-1.conf", "/dev/vdb")], []⟩
      = (.ok, ⟨[("d-1.conf", "/dev/vdb")], []⟩, false) ∧
    diskUnstageDetach ⟨false, true, .ok (), .ok (), "t", "d-1"⟩
        ⟨[("d-1.conf", "/dev/vdb")], []⟩
      = (.ok, ⟨[("d-1.conf", "/dev/vdb")], []⟩, false) ∧
    ensUnstageDetach "true" (.ok ()) "t" "d-1" ⟨[("d-1.conf", "/dev/vdb")], []⟩
      = (.ok, ⟨[("d-1.conf", "/dev/vdb")], []⟩, false) := by
  refine ⟨by decide, by decide, by decide⟩

/-- Witness for C10 at concrete deployments: when this component detaches,
the record is archived; when delegated, it is not. -/
theorem claim_C10_witness :
    diskUnstageDetach ⟨false, false, .ok (), .ok (), "t", "d-1"⟩
        ⟨[("d-1.conf", "/dev/vdb")], []⟩
      = (.ok, removeVolumeConfig "t" "d-1" ⟨[("d-1.conf", "/dev/vdb")], []⟩, true) ∧
    ensUnstageDetach "false" (.ok ()) "t" "d-1" ⟨[("d-1.conf", "/dev/vdb")], []⟩
      = (.ok, removeVolumeConfig "t" "d-1" ⟨[("d-1.conf", "/dev/vdb")], []⟩, true) := by
  constructor
  · exact (claim_C10_unstage_archive ⟨false, false, .ok (), .ok (), "t", "d-1"⟩
      ⟨[("d-1.conf", "/dev/vdb")], []⟩ "x" (.ok ()) "t" "d-1").2.2.1 rfl rfl rfl rfl
  · exact (claim_C10_unstage_archive ⟨false, false, .ok (), .ok (), "t", "d-1"⟩
      ⟨[("d-1.conf", "/dev/vdb")], []⟩ "x" (.ok ()) "t" "d-1").2.2.2.2 rfl

end Csi
